import Mathlib

/-!
# StrikePoint core: shallow embedding and verification

Shallow embedding of the StrikePoint option-analytics core, translated from
the Go sources:

* `calculator/black_scholes.go` — Black-Scholes pricing, Greeks and the
  Newton-Raphson implied-volatility solver (embedded over `ℝ`; the Go
  `float64` arithmetic is idealised as real arithmetic, and `math.Erf` is
  embedded as the textbook error function defined by an interval integral).
* `calculator/profit_matrix.go` — time × price profit-matrix simulator
  (embedded over `ℝ`; `time.Time` values are modelled as real-valued day
  counts on an absolute axis, and the single ambient wall-clock reading
  `time.Now()` is passed explicitly as a `now` parameter).
* the `strategies` package — trade data model, `CalculateMetrics`,
  `CalculatePnLAtExpiry` and the strategy recipe builders (embedded over `ℚ`
  so that every definition is executable; `float64` arithmetic is idealised
  as exact rational arithmetic, with `math.MaxFloat64` kept as the exact
  rational value of that IEEE double).

Go's `math.Round` (round half away from zero) is embedded explicitly; it
differs from Lean's `round` (round half up) at negative half-integers.
-/

namespace StrikePoint

/-! ## Option chain data model (`calculator` / `strategies` packages) -/

/-- Embeds `calculator.OptionType`. -/
inductive OptionType where
  | Call
  | Put
deriving DecidableEq, Repr

/-- Embeds `calculator.OptionContract` (market-data fields used by the core;
the `Expiry`/`Underlying` strings play no role in the embedded functions). -/
structure OptionContract where
  strike : ℚ
  typ : OptionType
  bid : ℚ
  ask : ℚ
  last : ℚ
  vol : ℚ
  delta : ℚ
  gamma : ℚ
  theta : ℚ
  vega : ℚ
deriving DecidableEq, Repr

/-- Embeds `strategies.Action`. -/
inductive Action where
  | Buy
  | Sell
deriving DecidableEq, Repr

/-- Embeds `strategies.TradeLeg`. -/
structure TradeLeg where
  action : Action
  quantity : ℤ
  isStock : Bool
  stockPrice : ℚ
  option : OptionContract
deriving DecidableEq, Repr

/-- Embeds `strategies.Trade` (the formatted description strings produced by
`fmt.Sprintf` in the builders are abstracted to plain strings). -/
structure Trade where
  name : String
  description : String
  sentiment : String
  legs : List TradeLeg
  maxProfit : ℚ := 0
  maxRisk : ℚ := 0
  breakEvens : List ℚ := []
  delta : ℚ := 0
  gamma : ℚ := 0
  theta : ℚ := 0
  vega : ℚ := 0
  netDebit : ℚ := 0
deriving DecidableEq, Repr

/-- The exact value of Go's `math.MaxFloat64`. -/
def maxFloat64 : ℚ := 2 ^ 1024 - 2 ^ 971

/-- Go's `math.Abs` on `ℚ`. -/
def goAbs (x : ℚ) : ℚ := if x < 0 then -x else x

/-- Go's `math.Round` on `ℚ`: round to nearest integer, half away from zero. -/
def goRound (x : ℚ) : ℚ :=
  if x < 0 then -((⌊-x + 1/2⌋ : ℤ) : ℚ) else ((⌊x + 1/2⌋ : ℤ) : ℚ)

/-- Embeds `math.Round(x*100)/100` — round to cents. -/
def round2 (x : ℚ) : ℚ := goRound (x * 100) / 100

/-! ## `strategies.Trade.CalculatePnLAtExpiry` -/

/-- One leg's value at expiry: the body of the per-leg branch of
`CalculatePnLAtExpiry` (stock legs `price × quantity`; option legs
intrinsic value `× 100 × quantity`). -/
def legValueAtExpiry (price : ℚ) (leg : TradeLeg) : ℚ :=
  if leg.isStock then
    price * (leg.quantity : ℚ)
  else
    let optValue : ℚ :=
      match leg.option.typ with
      | OptionType.Call => if price > leg.option.strike then price - leg.option.strike else 0
      | OptionType.Put => if price < leg.option.strike then leg.option.strike - price else 0
    optValue * 100 * (leg.quantity : ℚ)

/-- Embeds `strategies.Trade.CalculatePnLAtExpiry`: start from `-NetDebit`, add the
leg value for Buy legs and subtract it for Sell legs. -/
def Trade.CalculatePnLAtExpiry (t : Trade) (price : ℚ) : ℚ :=
  t.legs.foldl
    (fun pnl leg =>
      let value := legValueAtExpiry price leg
      if leg.action = Action.Buy then pnl + value else pnl - value)
    (-t.netDebit)

/-! ## `strategies.Trade.CalculateMetrics` -/

/-- Step 1 of `CalculateMetrics`: one leg's contribution to `NetDebit`
(cost = ask if Buy, bid if Sell, `StockPrice` for stock legs;
`× quantity`, `× 100` extra for option legs; signed by side). -/
def netDebitStep (acc : ℚ) (leg : TradeLeg) : ℚ :=
  let cost0 := if leg.action = Action.Sell then leg.option.bid else leg.option.ask
  let cost := if leg.isStock then leg.stockPrice else cost0
  let amount0 := cost * (leg.quantity : ℚ)
  let amount := if leg.isStock then amount0 else amount0 * 100
  if leg.action = Action.Buy then acc + amount else acc - amount

/-- Step 2 of `CalculateMetrics`: portfolio Greeks accumulator
`(delta, gamma, theta, vega)`; stock legs contribute signed quantity to
delta only, option legs contribute quote Greeks `× quantity × 100`, signed. -/
def greeksStep (g : ℚ × ℚ × ℚ × ℚ) (leg : TradeLeg) : ℚ × ℚ × ℚ × ℚ :=
  if leg.isStock then
    let q0 := (leg.quantity : ℚ)
    let q := if leg.action = Action.Sell then -q0 else q0
    (g.1 + q, g.2.1, g.2.2.1, g.2.2.2)
  else
    let q0 := (leg.quantity : ℚ) * 100
    let q := if leg.action = Action.Sell then -q0 else q0
    (g.1 + leg.option.delta * q, g.2.1 + leg.option.gamma * q,
      g.2.2.1 + leg.option.theta * q, g.2.2.2 + leg.option.vega * q)

/-- The scan grid of step 3 of `CalculateMetrics`: `minPrice = 0`,
`maxPrice = 3 × currentPrice`, `steps = 1000`, prices `i · stepSize`
for `i = 0, …, 1000`. -/
def scanPrices (currentPrice : ℚ) : List ℚ :=
  let stepSize := (currentPrice * 3 - 0) / 1000
  (List.range 1001).map (fun (i : ℕ) => 0 + (i : ℚ) * stepSize)

/-- The running-max loop of `CalculateMetrics`
(`maxProfit := -math.MaxFloat64; if pnl > maxProfit { maxProfit = pnl }`). -/
def runMax (l : List ℚ) : ℚ :=
  l.foldl (fun m x => if x > m then x else m) (-maxFloat64)

/-- The running-min loop of `CalculateMetrics`
(`minProfit := math.MaxFloat64; if pnl < minProfit { minProfit = pnl }`). -/
def runMin (l : List ℚ) : ℚ :=
  l.foldl (fun m x => if x < m then x else m) maxFloat64

/-- The break-even loop of `CalculateMetrics` over the `(price, pnl)` scan
points: on each adjacent pair with `(p1 < 0 ∧ p2 ≥ 0) ∨ (p1 ≥ 0 ∧ p2 < 0)`
record the linearly interpolated crossing `x1 - p1·(x2-x1)/(p2-p1)`,
rounded to cents. -/
def crossings : List (ℚ × ℚ) → List ℚ
  | (x1, p1) :: (x2, p2) :: rest =>
      if (p1 < 0 ∧ 0 ≤ p2) ∨ (0 ≤ p1 ∧ p2 < 0) then
        round2 (x1 - p1 * (x2 - x1) / (p2 - p1)) :: crossings ((x2, p2) :: rest)
      else
        crossings ((x2, p2) :: rest)
  | _ => []

/-- Steps 1–2 of `CalculateMetrics`: the trade with `NetDebit` and the four
portfolio Greeks recomputed from the legs (the state of the Go receiver when
the scan of step 3 starts). -/
def metricsBase (t : Trade) : Trade :=
  let nd := t.legs.foldl netDebitStep 0
  let g := t.legs.foldl greeksStep ((0 : ℚ), (0 : ℚ), (0 : ℚ), (0 : ℚ))
  { t with netDebit := nd, delta := g.1, gamma := g.2.1, theta := g.2.2.1, vega := g.2.2.2 }

/-- Embeds `strategies.Trade.CalculateMetrics` as a function on trades: recompute
`NetDebit` and the portfolio Greeks, then scan `CalculatePnLAtExpiry` (with
the freshly updated `NetDebit`, which the Go method has already written back
into the trade) over `scanPrices` for max profit, max risk and break-evens. -/
def Trade.CalculateMetrics (t : Trade) (currentPrice : ℚ) : Trade :=
  let t1 := metricsBase t
  let points := (scanPrices currentPrice).map t1.CalculatePnLAtExpiry
  let minProfit := runMin points
  { t1 with
      maxProfit := runMax points,
      maxRisk := if -minProfit < 0 then 0 else -minProfit,
      breakEvens := crossings ((scanPrices currentPrice).zip points) }

/-! ## Strategy recipe helpers (`strategies` package)

`findClosest` and the ATM-anchor search of `findOTM` keep Go's
`minDiff := math.MaxFloat64` initialisation exactly (a candidate is only
picked up while its distance is strictly below the running minimum, which
starts at `maxFloat64`); a `nil` best pointer is modelled as `none`.
`sort.Slice` (unstable, ordered by strike) is modelled as a stable insertion
sort by strike; for chains without duplicate same-type strikes the walks
below read the same contracts off either sort. -/

/-- Insert one contract into a strike-sorted list (helper for `sortByStrike`). -/
def insertByStrike (o : OptionContract) : List OptionContract → List OptionContract
  | [] => [o]
  | x :: xs => if o.strike ≤ x.strike then o :: x :: xs else x :: insertByStrike o xs

/-- The `sort.Slice(..., strike <)` call at the head of `findOTM`/`findITM`. -/
def sortByStrike (l : List OptionContract) : List OptionContract :=
  l.foldr insertByStrike []

/-- The loop body of `strategies.findClosest`: skip wrong-typed contracts,
pick up a contract whose distance to the target strictly beats the running
minimum. -/
def closestStep (targetStrike : ℚ) (optType : OptionType)
    (acc : ℚ × Option OptionContract) (opt : OptionContract) :
    ℚ × Option OptionContract :=
  if opt.typ ≠ optType then acc
  else
    let diff := goAbs (opt.strike - targetStrike)
    if diff < acc.1 then (diff, some opt) else acc

/-- Embeds `strategies.findClosest`: the contract of the requested type whose strike
is nearest `targetStrike` (first strict minimiser in chain order, with the
running minimum starting at `math.MaxFloat64` and the best pointer at nil). -/
def findClosest (chain : List OptionContract) (targetStrike : ℚ)
    (optType : OptionType) : Option OptionContract :=
  Prod.snd <| chain.foldl (closestStep targetStrike optType)
    (maxFloat64, (none : Option OptionContract))

/-- The ATM-anchor search inside `findOTM`/`findITM`: index (into the sorted
chain) of the contract of the requested type nearest `currentPrice`. -/
def findATMIndex (sorted : List OptionContract) (currentPrice : ℚ)
    (optType : OptionType) : Option ℕ :=
  Prod.snd <| sorted.enum.foldl
    (fun acc p =>
      if p.2.typ ≠ optType then acc
      else
        let diff := goAbs (p.2.strike - currentPrice)
        if diff < acc.1 then (diff, some p.1) else acc)
    (maxFloat64, (none : Option ℕ))

/-- The counting walk inside `findOTM`: return the `steps`-th contract
satisfying `p` (`count++; if count == steps { return }`). -/
def otmScan (p : OptionContract → Bool) : List OptionContract → ℕ → Option OptionContract
  | [], _ => none
  | o :: rest, steps =>
      if p o then
        if steps = 1 then some o else otmScan p rest (steps - 1)
      else otmScan p rest steps

/-- Embeds `strategies.findOTM`: sort by strike, anchor at the type's nearest-to-price
strike, then walk outward (up for calls, down for puts) counting only strikes
strictly out of the money. -/
def findOTM (chain : List OptionContract) (currentPrice : ℚ)
    (optType : OptionType) (steps : ℕ) : Option OptionContract :=
  let sorted := sortByStrike chain
  match findATMIndex sorted currentPrice optType with
  | none => none
  | some atmIdx =>
      if optType = OptionType.Call then
        otmScan (fun o => o.typ = optType ∧ currentPrice < o.strike) (sorted.drop atmIdx) steps
      else
        otmScan (fun o => o.typ = optType ∧ o.strike < currentPrice)
          ((sorted.take (atmIdx + 1)).reverse) steps

/-- A one-contract Sell leg, as built by the recipe literals. -/
def sellLeg (o : OptionContract) : TradeLeg :=
  { action := Action.Sell, quantity := 1, isStock := false, stockPrice := 0, option := o }

/-- A one-contract Buy leg, as built by the recipe literals. -/
def buyLeg (o : OptionContract) : TradeLeg :=
  { action := Action.Buy, quantity := 1, isStock := false, stockPrice := 0, option := o }

/-- The Straddle recipe builder: long nearest-to-price call and put; if their
strikes differ, re-anchor the put to the call's strike and give up unless a
put exists at exactly that strike. -/
def straddleBuilder (chain : List OptionContract) (currentPrice : ℚ) : Option Trade :=
  match findClosest chain currentPrice OptionType.Call,
      findClosest chain currentPrice OptionType.Put with
  | some call, some put0 =>
      let put? := if call.strike ≠ put0.strike
        then findClosest chain call.strike OptionType.Put else some put0
      match put? with
      | none => none
      | some put =>
          if call.strike ≠ put.strike then none
          else some
            { name := "Straddle",
              description := "Buy ATM Call + Buy ATM Put (Same Strike)",
              sentiment := "Neutral",
              legs := [buyLeg call, buyLeg put] }
  | _, _ => none

/-- The Iron Butterfly recipe builder: short nearest-to-price put and call,
long 2nd OTM put and call; if the two short strikes differ, re-anchor the
short put to the put nearest the call's strike (with no equality re-check —
unlike the Straddle, only a `nil` lookup aborts the trade). -/
def ironButterflyBuilder (chain : List OptionContract) (currentPrice : ℚ) : Option Trade :=
  match findClosest chain currentPrice OptionType.Call,
      findClosest chain currentPrice OptionType.Put,
      findOTM chain currentPrice OptionType.Call 2,
      findOTM chain currentPrice OptionType.Put 2 with
  | some atmCall, some atmPut0, some otmCall, some otmPut =>
      let atmPut? := if atmCall.strike ≠ atmPut0.strike
        then findClosest chain atmCall.strike OptionType.Put else some atmPut0
      match atmPut? with
      | none => none
      | some atmPut =>
          some
            { name := "Iron Butterfly",
              description := "Sell ATM Put + Sell ATM Call + Buy OTM Put + Buy OTM Call",
              sentiment := "Neutral",
              legs := [sellLeg atmPut, sellLeg atmCall, buyLeg otmPut, buyLeg otmCall] }
  | _, _, _, _ => none

/-! ## `calculator/black_scholes.go`: pricing engine over `ℝ` -/

/-- Embeds `math.Erf` as the textbook error function
`erf x = (2/√π) ∫ t in 0..x, e^(-t²)`. -/
noncomputable def erf (x : ℝ) : ℝ :=
  2 / Real.sqrt Real.pi * ∫ t in (0 : ℝ)..x, Real.exp (-t ^ 2)

/-- Embeds `calculator.cdf`: standard normal CDF, `0.5 * (1 + erf (x/√2))`. -/
noncomputable def cdf (x : ℝ) : ℝ :=
  0.5 * (1 + erf (x / Real.sqrt 2))

/-- Embeds `calculator.pdf`: standard normal density
`(1/√(2π)) · exp(-0.5·x·x)`. -/
noncomputable def pdf (x : ℝ) : ℝ :=
  1 / Real.sqrt (2 * Real.pi) * Real.exp (-0.5 * x * x)

/-- The five named results of `calculator.CalculateOptionPrice`. -/
structure PriceGreeks where
  price : ℝ
  delta : ℝ
  gamma : ℝ
  theta : ℝ
  vega : ℝ

/-- Embeds `calculator.CalculateOptionPrice`: Black-Scholes price and Greeks.
Gamma and vega (the latter divided by 100) are computed before the
call/put branch; thetas are reported daily (`/ 365`). -/
noncomputable def CalculateOptionPrice (optType : OptionType)
    (S K T r sigma : ℝ) : PriceGreeks :=
  let d1 := (Real.log (S / K) + (r + 0.5 * sigma * sigma) * T) / (sigma * Real.sqrt T)
  let d2 := d1 - sigma * Real.sqrt T
  let gamma := pdf d1 / (S * sigma * Real.sqrt T)
  let vega := S * pdf d1 * Real.sqrt T / 100
  if optType = OptionType.Call then
    let price := S * cdf d1 - K * Real.exp (-(r * T)) * cdf d2
    let delta := cdf d1
    let term1 := -(S * pdf d1 * sigma) / (2 * Real.sqrt T)
    let term2 := r * K * Real.exp (-(r * T)) * cdf d2
    let theta := (term1 - term2) / 365
    ⟨price, delta, gamma, theta, vega⟩
  else
    let price := K * Real.exp (-(r * T)) * cdf (-d2) - S * cdf (-d1)
    let delta := cdf d1 - 1
    let term1 := -(S * pdf d1 * sigma) / (2 * Real.sqrt T)
    let term2 := r * K * Real.exp (-(r * T)) * cdf (-d2)
    let theta := (term1 + term2) / 365
    ⟨price, delta, gamma, theta, vega⟩

/-- The raw (unscaled) vega `S · φ(d1) · √T` recomputed inside the loop body
of `CalculateIV` for the Newton update. -/
noncomputable def rawVega (S K T r sigma : ℝ) : ℝ :=
  let d1 := (Real.log (S / K) + (r + 0.5 * sigma * sigma) * T) / (sigma * Real.sqrt T)
  S * pdf d1 * Real.sqrt T

/-- The iteration loop of `calculator.CalculateIV` (fuel = remaining
iterations; the `break` on zero vega returns the current sigma, exactly like
falling off the end of the loop). -/
noncomputable def ivLoop (marketPrice : ℝ) (optType : OptionType)
    (S K T r : ℝ) : ℕ → ℝ → ℝ
  | 0, sigma => sigma
  | n + 1, sigma =>
      let res := CalculateOptionPrice optType S K T r sigma
      let diff := marketPrice - res.price
      if |diff| < 1e-5 then sigma
      else if res.vega = 0 then sigma
      else ivLoop marketPrice optType S K T r n (sigma + diff / rawVega S K T r sigma)

/-- Embeds `calculator.CalculateIV`: Newton-Raphson from `σ₀ = 0.5`, at most 100
iterations. -/
noncomputable def CalculateIV (marketPrice : ℝ) (optType : OptionType)
    (S K T r : ℝ) : ℝ :=
  ivLoop marketPrice optType S K T r 100 0.5

/-- Modelled from the spec's words (refinement reference for the solver
claim): each iteration computes the theoretical price at the current sigma,
returns sigma when `|marketPrice − price| < 1e-5`, stops on a raw vega of
exactly 0, and otherwise adds `(marketPrice − price) / (S·φ(d1)·√T)` —
the raw, unscaled vega. -/
noncomputable def ivLoopSpec (marketPrice : ℝ) (optType : OptionType)
    (S K T r : ℝ) : ℕ → ℝ → ℝ
  | 0, sigma => sigma
  | n + 1, sigma =>
      let price := (CalculateOptionPrice optType S K T r sigma).price
      let diff := marketPrice - price
      if |diff| < 1e-5 then sigma
      else if rawVega S K T r sigma = 0 then sigma
      else ivLoopSpec marketPrice optType S K T r n (sigma + diff / rawVega S K T r sigma)

/-- Modelled from the spec's words: the solver of the spec, started at
`σ₀ = 0.5` with a 100-iteration cap. -/
noncomputable def CalculateIVSpec (marketPrice : ℝ) (optType : OptionType)
    (S K T r : ℝ) : ℝ :=
  ivLoopSpec marketPrice optType S K T r 100 0.5

/-! ## `calculator/profit_matrix.go`: profit-matrix simulator over `ℝ`

Times are real-valued day counts on an absolute axis (`time.Time` zero value
↦ `0`; `.After` ↦ `<`; `.Sub(…).Hours()/24` ↦ subtraction). The wall clock
`time.Now()` — read by the Go function when picking fallback/start dates and
the per-date elapsed time — is the explicit `now` parameter. The
`"2006-01-02"` string formatting of the output date is abstracted to the raw
simulated time. The statically false `timeSlices == 1` branch (timeSlices is
the constant 8) is dropped. -/

/-- Embeds `calculator.LegInput`. -/
structure LegInput where
  strike : ℝ
  typ : OptionType
  action : String
  quantity : ℝ
  expiry : ℝ
  iv : ℝ

/-- Embeds `calculator.StrategyInput`. -/
structure StrategyInput where
  legs : List LegInput
  initialDebit : ℝ

/-- Embeds `calculator.MatrixPoint`. -/
structure MatrixPoint where
  date : ℝ
  price : ℝ
  profit : ℝ
  zScore : ℝ

/-- Embeds `calculator.MatrixResponse`. -/
structure MatrixResponse where
  grid : List MatrixPoint

/-- Go's `math.Round` on `ℝ` (round half away from zero). -/
noncomputable def goRoundR (x : ℝ) : ℝ :=
  if x < 0 then -((⌊-x + 1 / 2⌋ : ℤ) : ℝ) else ((⌊x + 1 / 2⌋ : ℤ) : ℝ)

/-- Embeds `math.Round(x*100)/100` over `ℝ`. -/
noncomputable def round2R (x : ℝ) : ℝ := goRoundR (x * 100) / 100

/-- Embeds `math.Round(x*1000)/1000` over `ℝ`. -/
noncomputable def round3R (x : ℝ) : ℝ := goRoundR (x * 1000) / 1000

/-- Step 1 of `CalculateProfitMatrix`: the latest leg expiry (`time.Time`
zero value, i.e. `0`, if there are no legs), with the `now + 30` days
fallback when that is still the zero time. -/
noncomputable def matrixExpiryDate (s : StrategyInput) (now : ℝ) : ℝ :=
  let e0 := s.legs.foldl (fun acc leg => if acc < leg.expiry then leg.expiry else acc) 0
  if e0 = 0 then now + 30 else e0

/-- Step 1 of `CalculateProfitMatrix`: start "tomorrow", falling back to
`now` when tomorrow is already past the expiry. -/
noncomputable def matrixStartDate (s : StrategyInput) (now : ℝ) : ℝ :=
  let startDate0 := now + 1
  if matrixExpiryDate s now < startDate0 then now else startDate0

/-- The 8 time slices of `CalculateProfitMatrix`: evenly spaced from the
start date with step `totalDays / 7` (a floor of `0.01` days avoids a zero
span), each clamped to the expiry date. -/
noncomputable def matrixDates (s : StrategyInput) (now : ℝ) : List ℝ :=
  let expiryDate := matrixExpiryDate s now
  let startDate := matrixStartDate s now
  let totalDays0 := expiryDate - startDate
  let totalDays := if totalDays0 ≤ 0 then 0.01 else totalDays0
  let stepDays := totalDays / 7
  (List.range 8).map (fun (i : ℕ) =>
    let d := startDate + (i : ℝ) * stepDays
    if expiryDate < d then expiryDate else d)

/-- The 21 price points of `CalculateProfitMatrix`, spanning
`[0.80 × currentPrice, 1.20 × currentPrice]` in 20 equal steps. -/
noncomputable def matrixPriceAxis (currentPrice : ℝ) : List ℝ :=
  let minPrice := currentPrice * 0.80
  let maxPrice := currentPrice * 1.20
  let priceStep := (maxPrice - minPrice) / 20
  (List.range 21).map (fun (i : ℕ) => minPrice + (i : ℝ) * priceStep)

/-- One grid cell of `CalculateProfitMatrix`: revalue every leg at the
simulated date `d` and underlying `p` (intrinsic value once expired,
Black-Scholes price otherwise, with the leg's IV falling back to the ambient
volatility when non-positive and a fixed 5% rate), apply the Sell sign and
`× quantity × 100` scaling, subtract the initial debit, and attach the
z-score `(p − c) / (c · vol · √elapsed)` (0 on a non-positive denominator).
Stored price/profit round to cents, the z-score to 3 decimals. -/
noncomputable def matrixCell (s : StrategyInput) (currentPrice volatility now d p : ℝ) :
    MatrixPoint :=
  let timeToSimDate0 := (d - now) / 365
  let timeToSimDate := if timeToSimDate0 < 0.0001 then 0.0001 else timeToSimDate0
  let combinedOptionValue := s.legs.foldl
    (fun acc leg =>
      let tRem := (leg.expiry - d) / 365
      let legValue :=
        if tRem ≤ 0 then
          match leg.typ with
          | OptionType.Call => if p > leg.strike then p - leg.strike else 0
          | OptionType.Put => if p < leg.strike then leg.strike - p else 0
        else
          let sigma := if leg.iv ≤ 0 then volatility else leg.iv
          (CalculateOptionPrice leg.typ p leg.strike tRem 0.05 sigma).price
      let sign : ℝ := if leg.action = "Sell" then -1 else 1
      acc + sign * legValue * leg.quantity * 100)
    0
  let netProfit := combinedOptionValue - s.initialDebit
  let denom := currentPrice * volatility * Real.sqrt timeToSimDate
  let zScore := if 0 < denom then (p - currentPrice) / denom else 0
  { date := d, price := round2R p, profit := round2R netProfit, zScore := round3R zScore }

/-- Embeds `calculator.CalculateProfitMatrix`: the 8 × 21 grid, outer loop over
dates, inner loop over prices. The Go function's `error` result is
invariably `nil` (the function is total), so only the response is modelled. -/
noncomputable def CalculateProfitMatrix (s : StrategyInput)
    (currentPrice volatility now : ℝ) : MatrixResponse :=
  ⟨(matrixDates s now).flatMap (fun d =>
      (matrixPriceAxis currentPrice).map (fun p =>
        matrixCell s currentPrice volatility now d p))⟩

/-- The 8 consecutive 21-cell date groups of a profit-matrix grid. -/
def gridBlocks (resp : MatrixResponse) : List (List MatrixPoint) :=
  (List.range 8).map (fun j => (resp.grid.drop (21 * j)).take 21)

/-! ## Specification-side reformulations used by the claims -/

/-- The claim's per-leg P&L contribution: intrinsic value `max(price−strike,0)`
(call) / `max(strike−price,0)` (put) `× 100 × quantity` for option legs,
`price × quantity` for stock legs, signed by Buy/Sell. -/
def legPnLSpec (price : ℚ) (leg : TradeLeg) : ℚ :=
  (if leg.action = Action.Buy then 1 else -1) *
    (if leg.isStock then price * (leg.quantity : ℚ)
     else
       (match leg.option.typ with
        | OptionType.Call => max (price - leg.option.strike) 0
        | OptionType.Put => max (leg.option.strike - price) 0) * 100 * (leg.quantity : ℚ))

/-- Linear interpolation of the zero crossing between scan points
`a = (x1, p1)` and `b = (x2, p2)`. -/
def interpolatedZero (a b : ℚ × ℚ) : ℚ :=
  a.1 - a.2 * (b.1 - a.1) / (b.2 - a.2)

/-- The sign-change test between two adjacent scanned P&L values. -/
def signChange (p1 p2 : ℚ) : Bool :=
  (p1 < 0 ∧ 0 ≤ p2) ∨ (0 ≤ p1 ∧ p2 < 0)

/-- The claim's break-even list: one entry for every adjacent pair of scan
points whose P&L values change sign, the interpolated crossing rounded to
cents. -/
def breakEvensSpec (pts : List (ℚ × ℚ)) : List ℚ :=
  ((pts.zip pts.tail).filter (fun ab => signChange ab.1.2 ab.2.2)).map
    (fun ab => round2 (interpolatedZero ab.1 ab.2))

/-! ## Concrete data used by witnesses and counterexamples -/

/-- An option-chain row with the given strike and type (quote fields fixed). -/
def mkOpt (strike : ℚ) (ty : OptionType) : OptionContract :=
  { strike := strike, typ := ty, bid := 1, ask := 1, last := 1, vol := 0,
    delta := 0, gamma := 0, theta := 0, vega := 0 }

/-- A chain whose puts stop at strike 90 while the calls sit at 100+:
no put exists at the nearest call strike 100. -/
def chainNoAtmPut : List OptionContract :=
  [mkOpt 100 OptionType.Call, mkOpt 105 OptionType.Call, mkOpt 110 OptionType.Call,
   mkOpt 80 OptionType.Put, mkOpt 85 OptionType.Put, mkOpt 90 OptionType.Put]

/-- A chain carrying a put at the nearest call strike 100. -/
def chainWithAtmPut : List OptionContract :=
  [mkOpt 95 OptionType.Call, mkOpt 100 OptionType.Call, mkOpt 105 OptionType.Call,
   mkOpt 110 OptionType.Call, mkOpt 80 OptionType.Put, mkOpt 85 OptionType.Put,
   mkOpt 90 OptionType.Put, mkOpt 95 OptionType.Put, mkOpt 100 OptionType.Put]

/-- A trade with no legs (used to instantiate universally quantified
metrics theorems). -/
def emptyTrade : Trade :=
  { name := "empty", description := "", sentiment := "Neutral", legs := [] }

/-! ## C1, C8: `CalculatePnLAtExpiry` -/

lemma if_sub_eq_max (a b : ℚ) : (if b < a then a - b else 0) = max (a - b) 0 := by
  rcases le_or_lt a b with h | h
  · rw [if_neg (not_lt.mpr h), max_eq_right (by linarith)]
  · rw [if_pos h, max_eq_left (by linarith)]

lemma legValueAtExpiry_eq_spec (price : ℚ) (leg : TradeLeg) :
    (if leg.action = Action.Buy then legValueAtExpiry price leg
     else -legValueAtExpiry price leg) = legPnLSpec price leg := by
  obtain ⟨act, q, isS, sp, ⟨strike, ty, bid, ask, last, vol, d, g, th, v⟩⟩ := leg
  unfold legValueAtExpiry legPnLSpec
  cases act <;> cases isS <;> cases ty <;>
    simp only [gt_iff_lt, if_sub_eq_max] <;> simp

lemma pnl_foldl (legs : List TradeLeg) (p a : ℚ) :
    legs.foldl
        (fun pnl leg =>
          let value := legValueAtExpiry p leg
          if leg.action = Action.Buy then pnl + value else pnl - value) a
      = a + (legs.map (legPnLSpec p)).sum := by
  induction legs generalizing a with
  | nil => simp
  | cons leg rest ih =>
      simp only [List.foldl, List.map, List.sum_cons]
      rw [ih]
      have h := legValueAtExpiry_eq_spec p leg
      by_cases hb : leg.action = Action.Buy
      · rw [if_pos hb] at h ⊢; rw [← h]; ring
      · rw [if_neg hb] at h ⊢; rw [← h]; ring

/-- C1: for every trade and price `p ≥ 0`, `CalculatePnLAtExpiry` equals
`−NetDebit` plus the sum over legs of the intrinsic-value contribution
(`max(p−strike,0)` for calls, `max(strike−p,0)` for puts, `× 100 × quantity`
for option legs; `p × quantity` for stock legs), signed Buy `+` / Sell `−`. -/
theorem pnlAtExpiry_spec (t : Trade) (p : ℚ) (_hp : 0 ≤ p) :
    t.CalculatePnLAtExpiry p = -t.netDebit + (t.legs.map (legPnLSpec p)).sum := by
  unfold Trade.CalculatePnLAtExpiry
  exact pnl_foldl t.legs p (-t.netDebit)

/-- Witness for C1 at a concrete one-leg trade and price. -/
theorem pnlAtExpiry_spec_witness :
    (0 : ℚ) ≤ 120 ∧
      ({ emptyTrade with
          legs := [buyLeg (mkOpt 100 OptionType.Call)],
          netDebit := 500 } : Trade).CalculatePnLAtExpiry 120
          = -(500 : ℚ) +
            (({ emptyTrade with
                legs := [buyLeg (mkOpt 100 OptionType.Call)],
                netDebit := 500 } : Trade).legs.map (legPnLSpec 120)).sum :=
  ⟨by norm_num, pnlAtExpiry_spec _ 120 (by norm_num)⟩

/-- C8: a trade holding a single Buy call leg of quantity 1 with strike `K`
and (total-dollar) net debit `D ≥ 0` breaks even exactly at `K + D/100`. -/
theorem single_call_breakeven (t : Trade) (leg : TradeLeg) (K D : ℚ)
    (hlegs : t.legs = [leg]) (hact : leg.action = Action.Buy)
    (hstock : leg.isStock = false) (hty : leg.option.typ = OptionType.Call)
    (hstrike : leg.option.strike = K) (hq : leg.quantity = 1)
    (hnd : t.netDebit = D) (hD : 0 ≤ D) :
    t.CalculatePnLAtExpiry (K + D / 100) = 0 := by
  unfold Trade.CalculatePnLAtExpiry legValueAtExpiry
  rw [hlegs]
  simp only [List.foldl, hact, hstock, hty, hstrike, hq, hnd]
  rcases eq_or_lt_of_le hD with h0 | h0
  · subst h0
    norm_num
  · simp only [gt_iff_lt, if_pos (by linarith : K < K + D / 100)]
    push_cast
    ring

set_option maxRecDepth 4000 in
/-- Witness for C8: `K = 10`, `D = 100`, break-even at 11. -/
theorem single_call_breakeven_witness :
    ({ emptyTrade with
        legs := [buyLeg (mkOpt 10 OptionType.Call)],
        netDebit := 100 } : Trade).CalculatePnLAtExpiry (10 + 100 / 100) = 0 :=
  single_call_breakeven _ _ 10 100 rfl rfl rfl rfl rfl rfl rfl (by norm_num)

/-! ## C9: `CalculateMetrics` frame -/

/-- C9: `CalculateMetrics` only touches the derived fields — the legs list
and the name, description and sentiment strings come through unchanged. -/
theorem calculateMetrics_frame (t : Trade) (c : ℚ) :
    (t.CalculateMetrics c).legs = t.legs ∧
      (t.CalculateMetrics c).name = t.name ∧
      (t.CalculateMetrics c).description = t.description ∧
      (t.CalculateMetrics c).sentiment = t.sentiment := by
  unfold Trade.CalculateMetrics
  exact ⟨rfl, rfl, rfl, rfl⟩

/-! ## C2: the price scan of `CalculateMetrics` -/

lemma foldl_if_max (l : List ℚ) (i : ℚ) :
    l.foldl (fun m x => if x > m then x else m) i = l.foldl max i := by
  induction l generalizing i with
  | nil => rfl
  | cons a l ih =>
      simp only [List.foldl]
      rw [ih]
      congr 1
      rcases le_or_lt a i with h | h
      · rw [if_neg (not_lt.mpr h), max_eq_left h]
      · rw [if_pos h, max_eq_right h.le]

lemma foldl_if_min (l : List ℚ) (i : ℚ) :
    l.foldl (fun m x => if x < m then x else m) i = l.foldl min i := by
  induction l generalizing i with
  | nil => rfl
  | cons a l ih =>
      simp only [List.foldl]
      rw [ih]
      congr 1
      rcases le_or_lt i a with h | h
      · rw [if_neg (not_lt.mpr h), min_eq_left h]
      · rw [if_pos h, min_eq_right h.le]

lemma foldl_max_spec (l : List ℚ) (i : ℚ) :
    i ≤ l.foldl max i ∧ (∀ x ∈ l, x ≤ l.foldl max i) ∧
      (l.foldl max i = i ∨ l.foldl max i ∈ l) := by
  induction l generalizing i with
  | nil => exact ⟨le_refl i, by simp, Or.inl rfl⟩
  | cons a l ih =>
      obtain ⟨h1, h2, h3⟩ := ih (max i a)
      refine ⟨le_trans (le_max_left i a) h1, ?_, ?_⟩
      · intro x hx
        rcases List.mem_cons.1 hx with rfl | hx
        · exact le_trans (le_max_right i x) h1
        · exact h2 x hx
      · rcases h3 with h3 | h3
        · rcases max_choice i a with hm | hm
          · exact Or.inl (by rw [List.foldl_cons, h3, hm])
          · exact Or.inr (by rw [List.foldl_cons, h3, hm]; exact List.mem_cons_self a l)
        · exact Or.inr (List.mem_cons_of_mem a h3)

lemma foldl_min_spec (l : List ℚ) (i : ℚ) :
    l.foldl min i ≤ i ∧ (∀ x ∈ l, l.foldl min i ≤ x) ∧
      (l.foldl min i = i ∨ l.foldl min i ∈ l) := by
  induction l generalizing i with
  | nil => exact ⟨le_refl i, by simp, Or.inl rfl⟩
  | cons a l ih =>
      obtain ⟨h1, h2, h3⟩ := ih (min i a)
      refine ⟨le_trans h1 (min_le_left i a), ?_, ?_⟩
      · intro x hx
        rcases List.mem_cons.1 hx with rfl | hx
        · exact le_trans h1 (min_le_right i x)
        · exact h2 x hx
      · rcases h3 with h3 | h3
        · rcases min_choice i a with hm | hm
          · exact Or.inl (by rw [List.foldl_cons, h3, hm])
          · exact Or.inr (by rw [List.foldl_cons, h3, hm]; exact List.mem_cons_self a l)
        · exact Or.inr (List.mem_cons_of_mem a h3)

lemma crossings_eq_breakEvensSpec (l : List (ℚ × ℚ)) :
    crossings l = breakEvensSpec l := by
  induction l with
  | nil => rfl
  | cons a rest ih =>
      cases rest with
      | nil => rfl
      | cons b rest2 =>
          obtain ⟨x1, p1⟩ := a
          obtain ⟨x2, p2⟩ := b
          have hz : ((x1, p1) :: (x2, p2) :: rest2).zip (((x1, p1) :: (x2, p2) :: rest2).tail)
              = ((x1, p1), (x2, p2)) :: (((x2, p2) :: rest2).zip (((x2, p2) :: rest2).tail)) := by
            cases rest2 <;> rfl
          by_cases h : (p1 < 0 ∧ 0 ≤ p2) ∨ (0 ≤ p1 ∧ p2 < 0)
          · rw [show crossings ((x1, p1) :: (x2, p2) :: rest2)
                  = round2 (x1 - p1 * (x2 - x1) / (p2 - p1))
                    :: crossings ((x2, p2) :: rest2) by
                rw [crossings]; rw [if_pos h]]
            rw [ih]
            unfold breakEvensSpec
            rw [hz, List.filter_cons_of_pos (by simpa [signChange] using h), List.map_cons]
            rfl
          · rw [show crossings ((x1, p1) :: (x2, p2) :: rest2)
                  = crossings ((x2, p2) :: rest2) by rw [crossings]; rw [if_neg h]]
            rw [ih]
            unfold breakEvensSpec
            rw [hz, List.filter_cons_of_neg (by simpa [signChange] using h)]

lemma scanPrices_length (c : ℚ) : (scanPrices c).length = 1001 := by
  unfold scanPrices
  rw [List.length_map, List.length_range]

lemma calculateMetrics_legs (t : Trade) (c : ℚ) :
    (t.CalculateMetrics c).legs = (metricsBase t).legs := by
  simp only [Trade.CalculateMetrics]

lemma calculateMetrics_netDebit (t : Trade) (c : ℚ) :
    (t.CalculateMetrics c).netDebit = (metricsBase t).netDebit := by
  simp only [Trade.CalculateMetrics]

lemma calculateMetrics_pnl (t : Trade) (c : ℚ) :
    (t.CalculateMetrics c).CalculatePnLAtExpiry = (metricsBase t).CalculatePnLAtExpiry := by
  funext p
  unfold Trade.CalculatePnLAtExpiry
  rw [calculateMetrics_legs, calculateMetrics_netDebit]

lemma calculateMetrics_maxProfit (t : Trade) (c : ℚ) :
    (t.CalculateMetrics c).maxProfit
      = runMax ((scanPrices c).map (metricsBase t).CalculatePnLAtExpiry) := by
  simp only [Trade.CalculateMetrics]

lemma calculateMetrics_maxRisk (t : Trade) (c : ℚ) :
    (t.CalculateMetrics c).maxRisk
      = (if -(runMin ((scanPrices c).map (metricsBase t).CalculatePnLAtExpiry)) < 0
          then 0
          else -(runMin ((scanPrices c).map (metricsBase t).CalculatePnLAtExpiry))) := by
  simp only [Trade.CalculateMetrics]

lemma calculateMetrics_breakEvens (t : Trade) (c : ℚ) :
    (t.CalculateMetrics c).breakEvens
      = crossings ((scanPrices c).zip
          ((scanPrices c).map (metricsBase t).CalculatePnLAtExpiry)) := by
  simp only [Trade.CalculateMetrics]

/-- C2: after `CalculateMetrics`, provided every scanned P&L value lies in
the `float64` range (automatic for finite floats), `MaxProfit` is the
maximum of `CalculatePnLAtExpiry` over the 1001 scan prices `0, …, 3c`,
`MaxRisk` is the negated minimum floored at 0, and `BreakEvens` records one
cents-rounded interpolated crossing per adjacent sign change. -/
theorem calculateMetrics_scan_spec (t : Trade) (c : ℚ) (_hc : 0 < c)
    (hbound : ∀ x ∈ (scanPrices c).map (t.CalculateMetrics c).CalculatePnLAtExpiry,
        |x| ≤ maxFloat64) :
    ((t.CalculateMetrics c).maxProfit
        ∈ (scanPrices c).map (t.CalculateMetrics c).CalculatePnLAtExpiry
      ∧ ∀ x ∈ (scanPrices c).map (t.CalculateMetrics c).CalculatePnLAtExpiry,
          x ≤ (t.CalculateMetrics c).maxProfit)
    ∧ (∃ m ∈ (scanPrices c).map (t.CalculateMetrics c).CalculatePnLAtExpiry,
        (∀ x ∈ (scanPrices c).map (t.CalculateMetrics c).CalculatePnLAtExpiry, m ≤ x)
        ∧ (t.CalculateMetrics c).maxRisk = max (-m) 0)
    ∧ (t.CalculateMetrics c).breakEvens
        = breakEvensSpec ((scanPrices c).zip
            ((scanPrices c).map (t.CalculateMetrics c).CalculatePnLAtExpiry)) := by
  classical
  rw [calculateMetrics_pnl] at hbound ⊢
  rw [calculateMetrics_maxProfit, calculateMetrics_maxRisk, calculateMetrics_breakEvens]
  set pts := (scanPrices c).map (metricsBase t).CalculatePnLAtExpiry with hpts
  have hne : pts ≠ [] := by
    rw [hpts]
    intro hnil
    have hlen := congrArg List.length hnil
    rw [List.length_map, scanPrices_length, List.length_nil] at hlen
    exact absurd hlen (by norm_num)
  obtain ⟨x0, hx0⟩ := List.exists_mem_of_ne_nil pts hne
  refine ⟨?_, ?_, ?_⟩
  · -- max profit
    unfold runMax
    rw [foldl_if_max]
    obtain ⟨h1, h2, h3⟩ := foldl_max_spec pts (-maxFloat64)
    rcases h3 with h3 | h3
    · have hlow : -maxFloat64 ≤ x0 := neg_le_of_abs_le (hbound x0 hx0)
      have hx0eq : x0 = pts.foldl max (-maxFloat64) :=
        le_antisymm (h2 x0 hx0) (by rw [h3]; exact hlow)
      exact ⟨by rw [← hx0eq]; exact hx0, h2⟩
    · exact ⟨h3, h2⟩
  · -- max risk
    obtain ⟨h1, h2, h3⟩ := foldl_min_spec pts maxFloat64
    have hmin : pts.foldl min maxFloat64 ∈ pts := by
      rcases h3 with h3 | h3
      · have hup : x0 ≤ maxFloat64 := le_of_abs_le (hbound x0 hx0)
        have hx0eq : x0 = pts.foldl min maxFloat64 :=
          le_antisymm (by rw [h3]; exact hup) (h2 x0 hx0)
        rw [← hx0eq]
        exact hx0
      · exact h3
    refine ⟨pts.foldl min maxFloat64, hmin, h2, ?_⟩
    unfold runMin
    rw [foldl_if_min]
    rcases lt_or_le (-(pts.foldl min maxFloat64)) 0 with h | h
    · rw [if_pos h, max_eq_right h.le]
    · rw [if_neg (not_lt.mpr h), max_eq_left h]
  · -- break-evens
    rw [crossings_eq_breakEvensSpec]

/-- Witness for C2: the empty trade at current price 1 (its break-even list
is the spec's break-even list of the scan). -/
theorem calculateMetrics_scan_spec_witness :
    (emptyTrade.CalculateMetrics 1).breakEvens
      = breakEvensSpec ((scanPrices 1).zip
          ((scanPrices 1).map (emptyTrade.CalculateMetrics 1).CalculatePnLAtExpiry)) :=
  (calculateMetrics_scan_spec emptyTrade 1 (by norm_num) (by
    intro x hx
    obtain ⟨p, hp, rfl⟩ := List.mem_map.1 hx
    have hzero : (emptyTrade.CalculateMetrics 1).CalculatePnLAtExpiry p = 0 := by
      rw [calculateMetrics_pnl]
      unfold Trade.CalculatePnLAtExpiry metricsBase emptyTrade
      norm_num
    rw [hzero, abs_zero]
    unfold maxFloat64
    positivity)).2.2

/-! ## C6: the Iron Butterfly short strikes -/

lemma goAbs_nonneg (x : ℚ) : 0 ≤ goAbs x := by
  unfold goAbs
  rcases lt_or_le x 0 with h | h
  · rw [if_pos h]; linarith
  · rw [if_neg (not_lt.mpr h)]; exact h

lemma goAbs_eq_zero {x : ℚ} (h : goAbs x = 0) : x = 0 := by
  unfold goAbs at h
  rcases lt_or_le x 0 with h' | h'
  · rw [if_pos h'] at h; linarith
  · rwa [if_neg (not_lt.mpr h')] at h

/-- Invariant of the `findClosest` scan: the running minimum only decreases,
stays the distance of the best contract (of the right type) when one is
held, stays `maxFloat64` while none is, and ends below the distance of every
right-typed contract of the chain. -/
lemma closestFold_spec (K : ℚ) (ty : OptionType) :
    ∀ (chain : List OptionContract) (acc : ℚ × Option OptionContract),
      0 ≤ acc.1 →
      (acc.2 = none → acc.1 = maxFloat64) →
      (∀ o, acc.2 = some o → o.typ = ty ∧ goAbs (o.strike - K) = acc.1) →
      0 ≤ (chain.foldl (closestStep K ty) acc).1 ∧
        ((chain.foldl (closestStep K ty) acc).2 = none →
          (chain.foldl (closestStep K ty) acc).1 = maxFloat64) ∧
        (∀ o, (chain.foldl (closestStep K ty) acc).2 = some o →
          o.typ = ty ∧ goAbs (o.strike - K) = (chain.foldl (closestStep K ty) acc).1) ∧
        (chain.foldl (closestStep K ty) acc).1 ≤ acc.1 ∧
        (∀ q ∈ chain, q.typ = ty →
          (chain.foldl (closestStep K ty) acc).1 ≤ goAbs (q.strike - K)) := by
  intro chain
  induction chain with
  | nil =>
      intro acc h1 h2 h3
      exact ⟨h1, h2, h3, le_refl _, by simp⟩
  | cons opt rest ih =>
      intro acc h1 h2 h3
      have hstep : 0 ≤ (closestStep K ty acc opt).1 ∧
          ((closestStep K ty acc opt).2 = none → (closestStep K ty acc opt).1 = maxFloat64) ∧
          (∀ o, (closestStep K ty acc opt).2 = some o →
            o.typ = ty ∧ goAbs (o.strike - K) = (closestStep K ty acc opt).1) ∧
          (closestStep K ty acc opt).1 ≤ acc.1 ∧
          (opt.typ = ty → (closestStep K ty acc opt).1 ≤ goAbs (opt.strike - K)) := by
        unfold closestStep
        by_cases hty : opt.typ ≠ ty
        · rw [if_pos hty]
          exact ⟨h1, h2, h3, le_refl _, fun h => absurd h hty⟩
        · rw [if_neg hty]
          push_neg at hty
          by_cases hlt : goAbs (opt.strike - K) < acc.1
          · rw [if_pos hlt]
            refine ⟨goAbs_nonneg _, by simp, ?_, hlt.le, fun _ => le_refl _⟩
            intro o ho
            obtain rfl : opt = o := by simpa using ho
            exact ⟨hty, rfl⟩
          · rw [if_neg hlt]
            push_neg at hlt
            exact ⟨h1, h2, h3, le_refl _, fun _ => hlt⟩
      obtain ⟨s1, s2, s3, s4, s5⟩ := hstep
      obtain ⟨r1, r2, r3, r4, r5⟩ := ih (closestStep K ty acc opt) s1 s2 s3
      rw [List.foldl_cons]
      refine ⟨r1, r2, r3, le_trans r4 s4, ?_⟩
      intro q hq hqty
      rcases List.mem_cons.1 hq with rfl | hq
      · exact le_trans r4 (s5 hqty)
      · exact r5 q hq hqty

/-- If the chain holds a contract of the requested type at exactly the
target strike, `findClosest` returns a contract at exactly that strike. -/
lemma findClosest_exact (chain : List OptionContract) (K : ℚ) (ty : OptionType)
    (q : OptionContract) (hq : q ∈ chain) (hty : q.typ = ty) (hqs : q.strike = K) :
    ∃ b, findClosest chain K ty = some b ∧ b.typ = ty ∧ b.strike = K := by
  obtain ⟨r1, r2, r3, _, r5⟩ :=
    closestFold_spec K ty chain (maxFloat64, (none : Option OptionContract))
      (by unfold maxFloat64; positivity) (fun _ => rfl) (by simp)
  have hzero : (chain.foldl (closestStep K ty) (maxFloat64, none)).1 = 0 := by
    have hle := r5 q hq hty
    rw [hqs, sub_self] at hle
    have : goAbs 0 = 0 := by unfold goAbs; norm_num
    rw [this] at hle
    exact le_antisymm hle r1
  rcases hres : (chain.foldl (closestStep K ty) (maxFloat64, none)).2 with _ | b
  · have := r2 hres
    rw [hzero] at this
    have hne : (0 : ℚ) ≠ maxFloat64 := by unfold maxFloat64; norm_num
    exact absurd this hne
  · obtain ⟨hbty, hbdist⟩ := r3 b hres
    rw [hzero] at hbdist
    have : b.strike - K = 0 := goAbs_eq_zero hbdist
    refine ⟨b, ?_, hbty, by linarith⟩
    unfold findClosest
    rw [hres]

/-- C6 amended: whenever the Iron Butterfly builder produces a trade and the
chain does contain a put at the short call's exact strike, the two short
legs share that strike (the re-anchoring lookup returns a put at the exact
strike when one exists); without such a put the builder still returns a
trade whose short strikes may differ — see the counterexample. -/
theorem ironButterfly_short_put_reanchor (chain : List OptionContract)
    (cp : ℚ) (t : Trade) (h : ironButterflyBuilder chain cp = some t)
    (sp sc : TradeLeg) (hsp : t.legs[0]? = some sp) (hsc : t.legs[1]? = some sc)
    (hq : ∃ q ∈ chain, q.typ = OptionType.Put ∧ q.strike = sc.option.strike) :
    sp.action = Action.Sell ∧ sc.action = Action.Sell ∧
      sp.option.strike = sc.option.strike := by
  unfold ironButterflyBuilder at h
  rcases hAC : findClosest chain cp OptionType.Call with _ | atmCall <;> rw [hAC] at h
  · simp at h
  rcases hAP : findClosest chain cp OptionType.Put with _ | atmPut0 <;> rw [hAP] at h
  · simp at h
  rcases hOC : findOTM chain cp OptionType.Call 2 with _ | otmCall <;> rw [hOC] at h
  · simp at h
  rcases hOP : findOTM chain cp OptionType.Put 2 with _ | otmPut <;> rw [hOP] at h
  · simp at h
  simp only [] at h
  by_cases hne : atmCall.strike ≠ atmPut0.strike
  · rw [if_pos hne] at h
    rcases hRA : findClosest chain atmCall.strike OptionType.Put with _ | atmPut <;>
      rw [hRA] at h
    · simp at h
    simp only [Option.some.injEq] at h
    subst h
    simp only [List.getElem?_cons_zero, Option.some.injEq] at hsp
    simp only [List.getElem?_cons_succ, List.getElem?_cons_zero, Option.some.injEq] at hsc
    subst hsp
    subst hsc
    refine ⟨rfl, rfl, ?_⟩
    show atmPut.strike = atmCall.strike
    obtain ⟨q, hqmem, hqty, hqs⟩ := hq
    obtain ⟨b, hb, _, hbs⟩ := findClosest_exact chain atmCall.strike OptionType.Put q
      hqmem hqty hqs
    rw [hRA] at hb
    obtain rfl : b = atmPut := by simpa using hb.symm
    exact hbs
  · rw [if_neg hne] at h
    push_neg at hne
    simp only [Option.some.injEq] at h
    subst h
    simp only [List.getElem?_cons_zero, Option.some.injEq] at hsp
    simp only [List.getElem?_cons_succ, List.getElem?_cons_zero, Option.some.injEq] at hsc
    subst hsp
    subst hsc
    exact ⟨rfl, rfl, hne.symm⟩

/-! Constructor-equality rewrite rules feeding the concrete chain
evaluations below. -/

lemma put_ne_call : (OptionType.Put = OptionType.Call) = False := by simp

lemma call_ne_put : (OptionType.Call = OptionType.Put) = False := by simp

lemma call_eq_call : (OptionType.Call = OptionType.Call) = True := by simp

lemma put_eq_put : (OptionType.Put = OptionType.Put) = True := by simp

/-- The sorted form of `chainNoAtmPut`. -/
lemma sortByStrike_chainNoAtmPut :
    sortByStrike chainNoAtmPut
      = [mkOpt 80 OptionType.Put, mkOpt 85 OptionType.Put, mkOpt 90 OptionType.Put,
         mkOpt 100 OptionType.Call, mkOpt 105 OptionType.Call, mkOpt 110 OptionType.Call] := by
  unfold sortByStrike chainNoAtmPut
  norm_num [insertByStrike, mkOpt]

/-- C6 counterexample: on a chain whose calls start at strike 100 but whose
puts stop at 90, the Iron Butterfly builder still returns a trade — the
short put re-anchored to the nearest put, at 90 — so its two short legs sit
at different strikes even though the chain has no put at the short call's
exact strike. -/
theorem ironButterfly_counterexample :
    ironButterflyBuilder chainNoAtmPut 100
        = some
          { name := "Iron Butterfly",
            description := "Sell ATM Put + Sell ATM Call + Buy OTM Put + Buy OTM Call",
            sentiment := "Neutral",
            legs := [sellLeg (mkOpt 90 OptionType.Put), sellLeg (mkOpt 100 OptionType.Call),
                     buyLeg (mkOpt 85 OptionType.Put), buyLeg (mkOpt 110 OptionType.Call)] }
      ∧ (sellLeg (mkOpt 90 OptionType.Put)).option.strike
          ≠ (sellLeg (mkOpt 100 OptionType.Call)).option.strike
      ∧ ¬ ∃ q ∈ chainNoAtmPut, q.typ = OptionType.Put
            ∧ q.strike = (sellLeg (mkOpt 100 OptionType.Call)).option.strike := by
  refine ⟨?_, by norm_num [sellLeg, mkOpt], ?_⟩
  · have hC : findClosest chainNoAtmPut 100 OptionType.Call
        = some (mkOpt 100 OptionType.Call) := by
      unfold findClosest closestStep chainNoAtmPut
      norm_num [goAbs, maxFloat64, mkOpt, put_ne_call, call_ne_put, call_eq_call, put_eq_put]
    have hP : findClosest chainNoAtmPut 100 OptionType.Put
        = some (mkOpt 90 OptionType.Put) := by
      unfold findClosest closestStep chainNoAtmPut
      norm_num [goAbs, maxFloat64, mkOpt, put_ne_call, call_ne_put, call_eq_call, put_eq_put]
    have s2 : findATMIndex
        [mkOpt 80 OptionType.Put, mkOpt 85 OptionType.Put, mkOpt 90 OptionType.Put,
         mkOpt 100 OptionType.Call, mkOpt 105 OptionType.Call, mkOpt 110 OptionType.Call]
        100 OptionType.Call = some 3 := by
      unfold findATMIndex
      norm_num [List.enum, List.enumFrom, goAbs, maxFloat64, mkOpt,
        put_ne_call, call_ne_put, call_eq_call, put_eq_put]
    have s3 : findATMIndex
        [mkOpt 80 OptionType.Put, mkOpt 85 OptionType.Put, mkOpt 90 OptionType.Put,
         mkOpt 100 OptionType.Call, mkOpt 105 OptionType.Call, mkOpt 110 OptionType.Call]
        100 OptionType.Put = some 2 := by
      unfold findATMIndex
      norm_num [List.enum, List.enumFrom, goAbs, maxFloat64, mkOpt,
        put_ne_call, call_ne_put, call_eq_call, put_eq_put]
    have hOC : findOTM chainNoAtmPut 100 OptionType.Call 2
        = some (mkOpt 110 OptionType.Call) := by
      unfold findOTM
      rw [sortByStrike_chainNoAtmPut]
      dsimp only []
      rw [s2]
      norm_num [otmScan, mkOpt, put_ne_call, call_ne_put, call_eq_call, put_eq_put]
    have hOP : findOTM chainNoAtmPut 100 OptionType.Put 2
        = some (mkOpt 85 OptionType.Put) := by
      unfold findOTM
      rw [sortByStrike_chainNoAtmPut]
      dsimp only []
      rw [s3]
      norm_num [otmScan, mkOpt, put_ne_call, call_ne_put, call_eq_call, put_eq_put]
    unfold ironButterflyBuilder
    rw [hC, hP, hOC, hOP]
    norm_num [mkOpt, hP, sellLeg, buyLeg]
  · norm_num [chainNoAtmPut, mkOpt, sellLeg, call_ne_put, put_ne_call]

/-- The trade that the Iron Butterfly builder produces on `chainWithAtmPut`. -/
def ibWitnessTrade : Trade :=
  { name := "Iron Butterfly",
    description := "Sell ATM Put + Sell ATM Call + Buy OTM Put + Buy OTM Call",
    sentiment := "Neutral",
    legs := [sellLeg (mkOpt 100 OptionType.Put), sellLeg (mkOpt 100 OptionType.Call),
             buyLeg (mkOpt 90 OptionType.Put), buyLeg (mkOpt 110 OptionType.Call)] }

/-- The sorted form of `chainWithAtmPut`. -/
lemma sortByStrike_chainWithAtmPut :
    sortByStrike chainWithAtmPut
      = [mkOpt 80 OptionType.Put, mkOpt 85 OptionType.Put, mkOpt 90 OptionType.Put,
         mkOpt 95 OptionType.Call, mkOpt 95 OptionType.Put, mkOpt 100 OptionType.Call,
         mkOpt 100 OptionType.Put, mkOpt 105 OptionType.Call, mkOpt 110 OptionType.Call] := by
  unfold sortByStrike chainWithAtmPut
  norm_num [insertByStrike, mkOpt]

/-- Witness for the amended C6 theorem: on `chainWithAtmPut` the builder
yields a trade whose two short legs both sit at strike 100. -/
theorem ironButterfly_short_put_reanchor_witness :
    (sellLeg (mkOpt 100 OptionType.Put)).action = Action.Sell ∧
      (sellLeg (mkOpt 100 OptionType.Call)).action = Action.Sell ∧
      (sellLeg (mkOpt 100 OptionType.Put)).option.strike
        = (sellLeg (mkOpt 100 OptionType.Call)).option.strike :=
  ironButterfly_short_put_reanchor chainWithAtmPut 100 ibWitnessTrade
    (by
      have hC : findClosest chainWithAtmPut 100 OptionType.Call
          = some (mkOpt 100 OptionType.Call) := by
        unfold findClosest closestStep chainWithAtmPut
        norm_num [goAbs, maxFloat64, mkOpt, put_ne_call, call_ne_put, call_eq_call, put_eq_put]
      have hP : findClosest chainWithAtmPut 100 OptionType.Put
          = some (mkOpt 100 OptionType.Put) := by
        unfold findClosest closestStep chainWithAtmPut
        norm_num [goAbs, maxFloat64, mkOpt, put_ne_call, call_ne_put, call_eq_call, put_eq_put]
      have s2 : findATMIndex
          [mkOpt 80 OptionType.Put, mkOpt 85 OptionType.Put, mkOpt 90 OptionType.Put,
           mkOpt 95 OptionType.Call, mkOpt 95 OptionType.Put, mkOpt 100 OptionType.Call,
           mkOpt 100 OptionType.Put, mkOpt 105 OptionType.Call, mkOpt 110 OptionType.Call]
          100 OptionType.Call = some 5 := by
        unfold findATMIndex
        norm_num [List.enum, List.enumFrom, goAbs, maxFloat64, mkOpt,
          put_ne_call, call_ne_put, call_eq_call, put_eq_put]
      have s3 : findATMIndex
          [mkOpt 80 OptionType.Put, mkOpt 85 OptionType.Put, mkOpt 90 OptionType.Put,
           mkOpt 95 OptionType.Call, mkOpt 95 OptionType.Put, mkOpt 100 OptionType.Call,
           mkOpt 100 OptionType.Put, mkOpt 105 OptionType.Call, mkOpt 110 OptionType.Call]
          100 OptionType.Put = some 6 := by
        unfold findATMIndex
        norm_num [List.enum, List.enumFrom, goAbs, maxFloat64, mkOpt,
          put_ne_call, call_ne_put, call_eq_call, put_eq_put]
      have hOC : findOTM chainWithAtmPut 100 OptionType.Call 2
          = some (mkOpt 110 OptionType.Call) := by
        unfold findOTM
        rw [sortByStrike_chainWithAtmPut]
        dsimp only []
        rw [s2]
        norm_num [otmScan, mkOpt, put_ne_call, call_ne_put, call_eq_call, put_eq_put]
      have hOP : findOTM chainWithAtmPut 100 OptionType.Put 2
          = some (mkOpt 90 OptionType.Put) := by
        unfold findOTM
        rw [sortByStrike_chainWithAtmPut]
        dsimp only []
        rw [s3]
        norm_num [otmScan, mkOpt, put_ne_call, call_ne_put, call_eq_call, put_eq_put]
      unfold ironButterflyBuilder
      rw [hC, hP, hOC, hOP]
      norm_num [mkOpt, sellLeg, buyLeg, ibWitnessTrade])
    (sellLeg (mkOpt 100 OptionType.Put)) (sellLeg (mkOpt 100 OptionType.Call))
    (by simp [ibWitnessTrade]) (by simp [ibWitnessTrade])
    ⟨mkOpt 100 OptionType.Put, by simp [chainWithAtmPut], by simp [mkOpt],
      by simp [sellLeg, mkOpt]⟩

/-! ## C4: put-call parity -/

lemma erf_neg (x : ℝ) : erf (-x) = -erf x := by
  unfold erf
  have h1 : (∫ t in (0 : ℝ)..x, Real.exp (-(-t) ^ 2))
      = ∫ t in (-x)..(-(0 : ℝ)), Real.exp (-t ^ 2) :=
    intervalIntegral.integral_comp_neg (fun t => Real.exp (-t ^ 2))
  have h2 : (∫ t in (0 : ℝ)..x, Real.exp (-(-t) ^ 2))
      = ∫ t in (0 : ℝ)..x, Real.exp (-t ^ 2) := by
    congr 1
    ext t
    rw [neg_sq]
  rw [h2, neg_zero] at h1
  rw [intervalIntegral.integral_symm, ← h1]
  ring

lemma cdf_add_cdf_neg (x : ℝ) : cdf x + cdf (-x) = 1 := by
  unfold cdf
  have h : erf (-x / Real.sqrt 2) = -erf (x / Real.sqrt 2) := by
    rw [neg_div]
    exact erf_neg _
  rw [h]
  ring

/-- C4: for all valid inputs (`S, K, T, σ > 0`), the call and put prices of
`CalculateOptionPrice` at identical parameters satisfy exact put-call
parity `call − put = S − K·e^(−rT)` (in real arithmetic, via
`Φ(x) + Φ(−x) = 1`). -/
theorem put_call_parity (S K T r sigma : ℝ)
    (_hS : 0 < S) (_hK : 0 < K) (_hT : 0 < T) (_hsigma : 0 < sigma) :
    (CalculateOptionPrice OptionType.Call S K T r sigma).price
        - (CalculateOptionPrice OptionType.Put S K T r sigma).price
      = S - K * Real.exp (-(r * T)) := by
  unfold CalculateOptionPrice
  simp only [reduceCtorEq, if_true, if_false, call_eq_call, put_ne_call]
  set d1 := (Real.log (S / K) + (r + 0.5 * sigma * sigma) * T) / (sigma * Real.sqrt T)
    with hd1
  have h1 := cdf_add_cdf_neg d1
  have h2 := cdf_add_cdf_neg (d1 - sigma * Real.sqrt T)
  linear_combination S * h1 + (-(K * Real.exp (-(r * T)))) * h2

/-- Witness for C4 at `S = K = T = σ = 1`, `r = 0`. -/
theorem put_call_parity_witness :
    (CalculateOptionPrice OptionType.Call 1 1 1 0 1).price
        - (CalculateOptionPrice OptionType.Put 1 1 1 0 1).price
      = 1 - 1 * Real.exp (-(0 * 1)) :=
  put_call_parity 1 1 1 0 1 (by norm_num) (by norm_num) (by norm_num) (by norm_num)

/-! ## C7: Greeks sanity -/

lemma exp_neg_sq_integrable :
    MeasureTheory.Integrable (fun t : ℝ => Real.exp (-t ^ 2)) := by
  have h : MeasureTheory.Integrable (fun t : ℝ => Real.exp (-1 * t ^ 2)) :=
    integrable_exp_neg_mul_sq one_pos
  simpa using h

lemma intervalIntegral_exp_neg_sq_lt (x : ℝ) :
    (∫ t in (0 : ℝ)..x, Real.exp (-t ^ 2)) < Real.sqrt Real.pi / 2 := by
  have hIoi : (∫ t in Set.Ioi (0 : ℝ), Real.exp (-t ^ 2)) = Real.sqrt Real.pi / 2 := by
    have h := integral_gaussian_Ioi 1
    simpa using h
  have hpos : 0 < Real.sqrt Real.pi / 2 := by
    have := Real.sqrt_pos.mpr Real.pi_pos
    linarith
  rcases le_or_lt x 0 with hx | hx
  · have hnn : 0 ≤ ∫ t in x..(0 : ℝ), Real.exp (-t ^ 2) :=
      intervalIntegral.integral_nonneg hx (fun u _ => (Real.exp_pos _).le)
    have hle : (∫ t in (0 : ℝ)..x, Real.exp (-t ^ 2)) ≤ 0 := by
      rw [intervalIntegral.integral_symm]
      linarith
    linarith
  · have hsplit : (∫ t in Set.Ioc (0 : ℝ) x ∪ Set.Ioi x, Real.exp (-t ^ 2))
        = (∫ t in Set.Ioc (0 : ℝ) x, Real.exp (-t ^ 2))
          + ∫ t in Set.Ioi x, Real.exp (-t ^ 2) :=
      MeasureTheory.setIntegral_union (Set.Ioc_disjoint_Ioi (le_refl x)) measurableSet_Ioi
        exp_neg_sq_integrable.integrableOn exp_neg_sq_integrable.integrableOn
    rw [Set.Ioc_union_Ioi_eq_Ioi hx.le] at hsplit
    have htail : 0 < ∫ t in Set.Ioi x, Real.exp (-t ^ 2) := by
      rw [MeasureTheory.setIntegral_pos_iff_support_of_nonneg_ae
        (Filter.Eventually.of_forall fun t => (Real.exp_pos _).le)
        exp_neg_sq_integrable.integrableOn]
      have hsupp : (Function.support fun t : ℝ => Real.exp (-t ^ 2)) ∩ Set.Ioi x
          = Set.Ioi x :=
        Set.inter_eq_right.2 fun t _ => (Real.exp_pos _).ne'
      rw [hsupp, Real.volume_Ioi]
      exact ENNReal.zero_lt_top
    have hioc : (∫ t in (0 : ℝ)..x, Real.exp (-t ^ 2))
        = ∫ t in Set.Ioc (0 : ℝ) x, Real.exp (-t ^ 2) :=
      intervalIntegral.integral_of_le hx.le
    rw [hioc]
    rw [hIoi] at hsplit
    linarith

lemma erf_lt_one (x : ℝ) : erf x < 1 := by
  unfold erf
  have h := intervalIntegral_exp_neg_sq_lt x
  have hspos : 0 < Real.sqrt Real.pi := Real.sqrt_pos.mpr Real.pi_pos
  have hone : 2 / Real.sqrt Real.pi * (Real.sqrt Real.pi / 2) = 1 := by
    field_simp
  calc 2 / Real.sqrt Real.pi * ∫ t in (0 : ℝ)..x, Real.exp (-t ^ 2)
      < 2 / Real.sqrt Real.pi * (Real.sqrt Real.pi / 2) :=
        mul_lt_mul_of_pos_left h (by positivity)
    _ = 1 := hone

lemma neg_one_lt_erf (x : ℝ) : -1 < erf x := by
  have h := erf_lt_one (-x)
  rw [erf_neg] at h
  linarith

lemma cdf_pos (x : ℝ) : 0 < cdf x := by
  unfold cdf
  have h := neg_one_lt_erf (x / Real.sqrt 2)
  norm_num
  linarith

lemma cdf_lt_one (x : ℝ) : cdf x < 1 := by
  unfold cdf
  have h := erf_lt_one (x / Real.sqrt 2)
  norm_num
  linarith

lemma pdf_pos (x : ℝ) : 0 < pdf x := by
  unfold pdf
  have h2π : 0 < 2 * Real.pi := by positivity
  have hs := Real.sqrt_pos.mpr h2π
  positivity

/-- C7: for all valid inputs (`S, K, T, σ > 0`), `CalculateOptionPrice`
returns a call delta strictly inside `(0,1)`, a put delta strictly inside
`(−1,0)`, the same gamma for both option types, and a non-negative vega for
both. -/
theorem greeks_sanity (S K T r sigma : ℝ)
    (hS : 0 < S) (_hK : 0 < K) (_hT : 0 < T) (_hsigma : 0 < sigma) :
    (0 < (CalculateOptionPrice OptionType.Call S K T r sigma).delta
      ∧ (CalculateOptionPrice OptionType.Call S K T r sigma).delta < 1)
    ∧ (-1 < (CalculateOptionPrice OptionType.Put S K T r sigma).delta
      ∧ (CalculateOptionPrice OptionType.Put S K T r sigma).delta < 0)
    ∧ (CalculateOptionPrice OptionType.Call S K T r sigma).gamma
        = (CalculateOptionPrice OptionType.Put S K T r sigma).gamma
    ∧ (0 ≤ (CalculateOptionPrice OptionType.Call S K T r sigma).vega
      ∧ 0 ≤ (CalculateOptionPrice OptionType.Put S K T r sigma).vega) := by
  unfold CalculateOptionPrice
  simp only [call_eq_call, put_ne_call, if_true, if_false]
  set d1 := (Real.log (S / K) + (r + 0.5 * sigma * sigma) * T) / (sigma * Real.sqrt T)
    with hd1
  have hc1 := cdf_pos d1
  have hc2 := cdf_lt_one d1
  have hvega : 0 ≤ S * pdf d1 * Real.sqrt T / 100 := by
    apply div_nonneg _ (by norm_num)
    exact mul_nonneg (mul_nonneg hS.le (pdf_pos d1).le) (Real.sqrt_nonneg T)
  exact ⟨⟨hc1, hc2⟩, ⟨by linarith, by linarith⟩, trivial, hvega, hvega⟩

/-- Witness for C7 at `S = K = T = σ = 1`, `r = 0`. -/
theorem greeks_sanity_witness :
    (0 < (CalculateOptionPrice OptionType.Call 1 1 1 0 1).delta
      ∧ (CalculateOptionPrice OptionType.Call 1 1 1 0 1).delta < 1)
    ∧ (-1 < (CalculateOptionPrice OptionType.Put 1 1 1 0 1).delta
      ∧ (CalculateOptionPrice OptionType.Put 1 1 1 0 1).delta < 0)
    ∧ (CalculateOptionPrice OptionType.Call 1 1 1 0 1).gamma
        = (CalculateOptionPrice OptionType.Put 1 1 1 0 1).gamma
    ∧ (0 ≤ (CalculateOptionPrice OptionType.Call 1 1 1 0 1).vega
      ∧ 0 ≤ (CalculateOptionPrice OptionType.Put 1 1 1 0 1).vega) :=
  greeks_sanity 1 1 1 0 1 (by norm_num) (by norm_num) (by norm_num) (by norm_num)

/-! ## C3, C10: the implied-volatility solver -/

/-- The scaled vega of `CalculateOptionPrice` is exactly the raw vega of the
solver's Newton update divided by 100, for either option type. -/
lemma vega_eq_rawVega_div (optType : OptionType) (S K T r sigma : ℝ) :
    (CalculateOptionPrice optType S K T r sigma).vega = rawVega S K T r sigma / 100 := by
  unfold CalculateOptionPrice rawVega
  cases optType <;> simp

/-- C3: `CalculateIV` coincides, for every input, with the solver the spec
describes — Newton-Raphson from `σ₀ = 0.5`, at most 100 iterations,
returning on `|marketPrice − price| < 1e-5`, stopping on zero vega, and
updating by `(marketPrice − price)` divided by the *raw* vega
`S·φ(d1)·√T` (the `/100`-scaled vega that `CalculateOptionPrice` reports is
only used for the zero test, which agrees with the raw test since the two
vanish together). -/
theorem calculateIV_eq_spec (marketPrice : ℝ) (optType : OptionType)
    (S K T r : ℝ) :
    CalculateIV marketPrice optType S K T r
      = CalculateIVSpec marketPrice optType S K T r := by
  unfold CalculateIV CalculateIVSpec
  have hloop : ∀ (n : ℕ) (sigma : ℝ),
      ivLoop marketPrice optType S K T r n sigma
        = ivLoopSpec marketPrice optType S K T r n sigma := by
    intro n
    induction n with
    | zero => intro sigma; rfl
    | succ n ih =>
        intro sigma
        rw [ivLoop, ivLoopSpec]
        have hvega := vega_eq_rawVega_div optType S K T r sigma
        by_cases htol :
            |marketPrice - (CalculateOptionPrice optType S K T r sigma).price| < 1e-5
        · rw [if_pos htol, if_pos htol]
        · rw [if_neg htol, if_neg htol]
          by_cases hz : rawVega S K T r sigma = 0
          · have hz' : (CalculateOptionPrice optType S K T r sigma).vega = 0 := by
              rw [hvega, hz, zero_div]
            rw [if_pos hz', if_pos hz]
          · have hz' : (CalculateOptionPrice optType S K T r sigma).vega ≠ 0 := by
              rw [hvega]
              exact div_ne_zero hz (by norm_num)
            rw [if_neg hz', if_neg hz]
            exact ih _
  exact hloop 100 0.5

/-- C10: the zero test guarding the Newton update is performed on the scaled
vega returned by `CalculateOptionPrice`, which equals the recomputed raw
vega `S·φ(d1)·√T` divided by 100 at the same sigma; since a quotient by 100
vanishes exactly when its numerator does, a passed guard means the raw-vega
divisor of the update is non-zero — the update never divides by zero. -/
theorem iv_newton_divisor_nonzero (optType : OptionType) (S K T r sigma : ℝ) :
    (CalculateOptionPrice optType S K T r sigma).vega = rawVega S K T r sigma / 100
      ∧ ((CalculateOptionPrice optType S K T r sigma).vega ≠ 0 →
          rawVega S K T r sigma ≠ 0) := by
  refine ⟨vega_eq_rawVega_div optType S K T r sigma, ?_⟩
  intro hv hz
  rw [vega_eq_rawVega_div, hz, zero_div] at hv
  exact hv rfl

/-- Witness for C10 at `S = K = T = σ = 1`, `r = 0` (the guard there is
passed: the vega is strictly positive). -/
theorem iv_newton_divisor_nonzero_witness :
    ((CalculateOptionPrice OptionType.Call 1 1 1 0 1).vega
        = rawVega 1 1 1 0 1 / 100
      ∧ ((CalculateOptionPrice OptionType.Call 1 1 1 0 1).vega ≠ 0 →
          rawVega 1 1 1 0 1 ≠ 0))
    ∧ rawVega 1 1 1 0 1 ≠ 0 :=
  ⟨iv_newton_divisor_nonzero OptionType.Call 1 1 1 0 1, by
    unfold rawVega
    simp only [Real.sqrt_one, one_mul, mul_one]
    exact (pdf_pos _).ne'⟩

/-! ## C5: profit-matrix grid shape -/

lemma matrixDates_length (s : StrategyInput) (now : ℝ) :
    (matrixDates s now).length = 8 := by
  unfold matrixDates
  rw [List.length_map, List.length_range]

lemma matrixPriceAxis_length (c : ℝ) : (matrixPriceAxis c).length = 21 := by
  unfold matrixPriceAxis
  rw [List.length_map, List.length_range]

lemma matrixCell_price (s : StrategyInput) (c vol now d p : ℝ) :
    (matrixCell s c vol now d p).price = round2R p := by
  unfold matrixCell
  simp only []

lemma matrixCell_date (s : StrategyInput) (c vol now d p : ℝ) :
    (matrixCell s c vol now d p).date = d := by
  unfold matrixCell
  simp only []

lemma profit_matrix_grid_eq (s : StrategyInput) (c vol now : ℝ) :
    (CalculateProfitMatrix s c vol now).grid
      = (matrixDates s now).flatMap (fun d =>
          (matrixPriceAxis c).map (fun p => matrixCell s c vol now d p)) := rfl

/-- Block `j` of a flat-mapped list whose inner lists all have length `n`. -/
lemma flatMap_block {α β : Type} (f : α → List β) (n : ℕ) :
    ∀ (l : List α), (∀ a ∈ l, (f a).length = n) →
      ∀ (j : ℕ) (hj : j < l.length),
        ((l.flatMap f).drop (n * j)).take n = f (l.get ⟨j, hj⟩) := by
  intro l
  induction l with
  | nil =>
      intro _ j hj
      exact absurd hj (Nat.not_lt_zero j)
  | cons a l ih =>
      intro hf j hj
      cases j with
      | zero =>
          simp only [List.flatMap_cons, Nat.mul_zero, List.drop_zero, List.get]
          rw [← hf a (List.mem_cons_self a l), List.take_left]
      | succ j =>
          simp only [List.flatMap_cons, List.get]
          have harith : n * (j + 1) = (f a).length + n * j := by
            rw [hf a (List.mem_cons_self a l)]
            ring
          rw [harith, List.drop_append]
          exact ih (fun b hb => hf b (List.mem_cons_of_mem a hb)) j
            (Nat.lt_of_succ_lt_succ hj)

lemma gridBlocks_eq (s : StrategyInput) (c vol now : ℝ) :
    gridBlocks (CalculateProfitMatrix s c vol now)
      = (matrixDates s now).map (fun d =>
          (matrixPriceAxis c).map (fun p => matrixCell s c vol now d p)) := by
  unfold gridBlocks
  apply List.ext_get
  · rw [List.length_map, List.length_range, List.length_map, matrixDates_length]
  · intro i h1 h2
    rw [List.get_map, List.get_map]
    have hr : (List.range 8).get ⟨i, by simpa using h1⟩ = i := List.get_range _ _
    rw [hr, profit_matrix_grid_eq]
    have hlen : ∀ d ∈ matrixDates s now,
        ((matrixPriceAxis c).map (fun p => matrixCell s c vol now d p)).length = 21 := by
      intro d _
      rw [List.length_map, matrixPriceAxis_length]
    have hi : i < (matrixDates s now).length := by
      rw [matrixDates_length]
      simpa using h1
    exact flatMap_block _ 21 (matrixDates s now) hlen i hi

/-- The grid always holds exactly `8 × 21 = 168` points. -/
lemma profit_matrix_grid_length (s : StrategyInput) (c vol now : ℝ) :
    (CalculateProfitMatrix s c vol now).grid.length = 168 := by
  rw [profit_matrix_grid_eq, List.length_flatMap]
  rw [show (List.length ∘ fun d => List.map (fun p => matrixCell s c vol now d p)
        (matrixPriceAxis c))
      = fun d => ((matrixPriceAxis c).map (fun p => matrixCell s c vol now d p)).length
    from rfl]
  have h : (matrixDates s now).map
      (fun d => ((matrixPriceAxis c).map (fun p => matrixCell s c vol now d p)).length)
      = List.replicate 8 21 := by
    rw [List.eq_replicate_iff]
    constructor
    · rw [List.length_map, matrixDates_length]
    · intro x hx
      obtain ⟨d, _, rfl⟩ := List.mem_map.1 hx
      rw [List.length_map, matrixPriceAxis_length]
  rw [h]
  simp [List.sum_replicate]

lemma goRoundR_mono {x y : ℝ} (h : x ≤ y) : goRoundR x ≤ goRoundR y := by
  unfold goRoundR
  rcases lt_or_le x 0 with hx | hx <;> rcases lt_or_le y 0 with hy | hy
  · rw [if_pos hx, if_pos hy]
    have h3 : (⌊-y + 1 / 2⌋ : ℤ) ≤ ⌊-x + 1 / 2⌋ := Int.floor_mono (by linarith)
    have h3' : ((⌊-y + 1 / 2⌋ : ℤ) : ℝ) ≤ ((⌊-x + 1 / 2⌋ : ℤ) : ℝ) := by exact_mod_cast h3
    linarith
  · rw [if_pos hx, if_neg (not_lt.mpr hy)]
    have h1 : (0 : ℤ) ≤ ⌊-x + 1 / 2⌋ := Int.floor_nonneg.mpr (by linarith)
    have h2 : (0 : ℤ) ≤ ⌊y + 1 / 2⌋ := Int.floor_nonneg.mpr (by linarith)
    have h1' : (0 : ℝ) ≤ ((⌊-x + 1 / 2⌋ : ℤ) : ℝ) := by exact_mod_cast h1
    have h2' : (0 : ℝ) ≤ ((⌊y + 1 / 2⌋ : ℤ) : ℝ) := by exact_mod_cast h2
    linarith
  · linarith
  · rw [if_neg (not_lt.mpr hx), if_neg (not_lt.mpr hy)]
    exact_mod_cast Int.floor_mono (by linarith : x + 1 / 2 ≤ y + 1 / 2)

lemma goRoundR_strict {x y : ℝ} (hx : 0 ≤ x) (h : x + 1 ≤ y) :
    goRoundR x < goRoundR y := by
  unfold goRoundR
  rw [if_neg (not_lt.mpr hx), if_neg (not_lt.mpr (by linarith : (0 : ℝ) ≤ y))]
  have h1 : (⌊x + 1 / 2⌋ : ℤ) + 1 ≤ ⌊y + 1 / 2⌋ := by
    have : (⌊x + 1 / 2 + 1⌋ : ℤ) ≤ ⌊y + 1 / 2⌋ := Int.floor_mono (by linarith)
    rwa [Int.floor_add_one] at this
  exact_mod_cast Int.lt_iff_add_one_le.mpr h1

lemma round2R_mono {x y : ℝ} (h : x ≤ y) : round2R x ≤ round2R y := by
  unfold round2R
  have := goRoundR_mono (by linarith : x * 100 ≤ y * 100)
  linarith

lemma round2R_strict {x y : ℝ} (hx : 0 ≤ x) (h : x + 1 / 100 ≤ y) :
    round2R x < round2R y := by
  unfold round2R
  have := goRoundR_strict (by linarith : (0 : ℝ) ≤ x * 100)
    (by linarith : x * 100 + 1 ≤ y * 100)
  linarith

/-- C5 amended: for every strategy input (any legs, including none), price
`c > 0`, volatility and clock reading, the profit-matrix grid holds exactly
`8 × 21 = 168` points — 8 date groups of 21 cells, each group sharing one
scan date and scanning the 21 prices `0.8c + i·(0.4c/20)` (`i = 0 … 20`,
spanning `[0.8c, 1.2c]` inclusive before cent-rounding); within each group
the stored cent-rounded prices are non-decreasing, and strictly increasing
whenever `c ≥ 0.5` (for smaller prices cent-rounding can merge adjacent
points — see the counterexample). -/
theorem profit_matrix_grid_spec (s : StrategyInput) (c vol now : ℝ) (hc : 0 < c) :
    (CalculateProfitMatrix s c vol now).grid.length = 168
    ∧ gridBlocks (CalculateProfitMatrix s c vol now)
        = (matrixDates s now).map (fun d =>
            (matrixPriceAxis c).map (fun p => matrixCell s c vol now d p))
    ∧ (matrixDates s now).length = 8
    ∧ (matrixPriceAxis c).length = 21
    ∧ (matrixPriceAxis c).head? = some (c * 0.80)
    ∧ (matrixPriceAxis c).getLast? = some (c * 1.20)
    ∧ (∀ d ∈ matrixDates s now,
        ∀ pt ∈ (matrixPriceAxis c).map (fun p => matrixCell s c vol now d p),
          pt.date = d)
    ∧ (∀ b ∈ gridBlocks (CalculateProfitMatrix s c vol now),
        List.Chain' (· ≤ ·) (b.map MatrixPoint.price))
    ∧ ((1 / 2 : ℝ) ≤ c →
        ∀ b ∈ gridBlocks (CalculateProfitMatrix s c vol now),
          List.Chain' (· < ·) (b.map MatrixPoint.price)) := by
  have haxis : ∀ b ∈ gridBlocks (CalculateProfitMatrix s c vol now),
      b.map MatrixPoint.price
        = (List.range 21).map
            (fun (i : ℕ) => round2R (c * 0.80 + (i : ℝ) * ((c * 1.20 - c * 0.80) / 20))) := by
    intro b hb
    rw [gridBlocks_eq] at hb
    obtain ⟨d, _, rfl⟩ := List.mem_map.1 hb
    rw [List.map_map]
    unfold matrixPriceAxis
    rw [List.map_map]
    congr 1
  have hstep : (c * 1.20 - c * 0.80) / 20 = c / 50 := by ring
  refine ⟨profit_matrix_grid_length s c vol now, gridBlocks_eq s c vol now,
    matrixDates_length s now, matrixPriceAxis_length c, ?_, ?_, ?_, ?_, ?_⟩
  · -- head of the price axis
    unfold matrixPriceAxis
    rw [show List.range 21 = 0 :: List.map Nat.succ (List.range 20) from
      List.range_succ_eq_map 20]
    simp only [List.map_cons, List.head?_cons, Nat.cast_zero]
    norm_num
  · -- last of the price axis
    unfold matrixPriceAxis
    rw [List.getLast?_eq_getElem?]
    rw [List.length_map, List.length_range]
    rw [List.getElem?_map]
    rw [List.getElem?_range (by norm_num : 20 < 21)]
    simp only [Option.map_some']
    congr 1
    push_cast
    ring
  · -- each group shares its date
    intro d _ pt hpt
    obtain ⟨p, _, rfl⟩ := List.mem_map.1 hpt
    exact matrixCell_date s c vol now d p
  · -- non-decreasing prices
    intro b hb
    rw [haxis b hb]
    rw [List.chain'_map]
    rw [List.chain'_range_succ]
    intro m _
    apply round2R_mono
    have hstep' : 0 < (c * 1.20 - c * 0.80) / 20 := by
      rw [hstep]; positivity
    have : (m : ℝ) ≤ ((m + 1 : ℕ) : ℝ) := by push_cast; linarith
    nlinarith
  · -- strictly increasing prices when c ≥ 1/2
    intro hchalf b hb
    rw [haxis b hb]
    rw [List.chain'_map]
    rw [List.chain'_range_succ]
    intro m _
    apply round2R_strict
    · have : (0 : ℝ) ≤ (m : ℝ) := Nat.cast_nonneg m
      nlinarith
    · rw [hstep]
      have : ((m + 1 : ℕ) : ℝ) = (m : ℝ) + 1 := by push_cast; ring
      rw [this]
      have h50 : (1 : ℝ) / 100 ≤ c / 50 := by linarith
      nlinarith [Nat.cast_nonneg (α := ℝ) m]

/-- C5 counterexample: at `currentPrice = 0.1` the cent-rounded prices of
the first two cells of a date group coincide (both 0.08, since the raw step
is 0.002), so the grid's price values are *not* strictly increasing within
the date group. -/
theorem profit_matrix_not_strict :
    ∃ b ∈ gridBlocks (CalculateProfitMatrix ⟨[], 0⟩ (1 / 10) 0 0),
      ¬ List.Chain' (· < ·) (b.map MatrixPoint.price) := by
  obtain ⟨d0, hd0⟩ := List.exists_mem_of_ne_nil (matrixDates ⟨[], 0⟩ 0) (by
    intro hnil
    have hlen := congrArg List.length hnil
    rw [matrixDates_length, List.length_nil] at hlen
    exact absurd hlen (by norm_num))
  refine ⟨(matrixPriceAxis (1 / 10)).map
      (fun p => matrixCell ⟨[], 0⟩ (1 / 10) 0 0 d0 p), ?_, ?_⟩
  · rw [gridBlocks_eq]
    exact List.mem_map_of_mem _ hd0
  · have hprices : ((matrixPriceAxis (1 / 10)).map
        (fun p => matrixCell ⟨[], 0⟩ (1 / 10) 0 0 d0 p)).map MatrixPoint.price
        = (List.range 21).map
            (fun (i : ℕ) => round2R ((1 / 10 : ℝ) * 0.80
                + (i : ℝ) * (((1 / 10) * 1.20 - (1 / 10) * 0.80) / 20))) := by
      rw [List.map_map]
      unfold matrixPriceAxis
      rw [List.map_map]
      congr 1
    rw [hprices]
    intro hchain
    rw [List.chain'_iff_get] at hchain
    have h01 := hchain 0 (by
      rw [List.length_map, List.length_range]
      norm_num)
    rw [List.get_map, List.get_map, List.get_range, List.get_range] at h01
    unfold round2R goRoundR at h01
    norm_num at h01

/-- Witness for C5 at the empty strategy, price 1, volatility 0, clock 0. -/
theorem profit_matrix_grid_spec_witness :
    (CalculateProfitMatrix ⟨[], 0⟩ 1 0 0).grid.length = 168 :=
  (profit_matrix_grid_spec ⟨[], 0⟩ 1 0 0 (by norm_num)).1

end StrikePoint